import Mathlib

/-!
Verification development for the toponym reconciliation and geocoding engine
(repository `Catch-me-nator-`, files `server.py`, `processor/utils.py`,
`processor/exclusions.py`, `processor/geocode.py`).

Each section shallowly embeds one component of the Python source:

* `Reconcile` — the override-precedence model computed by
  `server._compute_model` (raw extraction set, auto-rejected set, user
  override state → final included / excluded page sets per term key);
* `Normalize` — the normalizer `processor.utils.normalize_name` /
  `server._norm`, over an abstract character model carrying the Unicode
  primitives the code uses (NFKD decomposition, combining-mark test,
  whitespace test, lowercasing);
* `Geo` — the candidate-ranking logic of `processor/geocode.py`
  (`_rank_tier`, `_name_match_strength`, `_rank_key`, and the
  sort-and-take-first selection of `geocode_name_robust`), the cache logic
  of `geocode_with_cache`, and the grouped batch loop of
  `phase_geocode_grouped`;
* `Store` — the loaders `processor.exclusions._load_raw_exclusions` and
  `server._load_user_state` over a model of JSON values, with Python's
  fallible operations (`in`, item assignment, iteration) embedded as
  `Except`-valued functions.

The file is organised as definitions first (the embedding), then theorems.
-/

namespace Reconcile

/--
State combined by `server._compute_model` (server.py lines 290-344), per
term key (a normalized string):

* `baseIncluded k`  — pages where `k` appears in `annale_toponimi.csv`
  (`base_included[norm]["pages"]`, built by `_read_base_csv`);
* `autoExcl k`      — pages where `k` appears in
  `annale_toponimi_esclusi.csv` (`auto_excl[norm]["pages"]`, built by
  `_read_fallback_excluded`);
* `excludeGlobal`   — the set `exclude_global` (line 312);
* `exPages`         — the set `ex_pages_set` of (norm, page) pairs
  (lines 317-322);
* `inPages`         — the set `in_pages_set` of (norm, page) pairs
  (lines 324-333).

The page type `α` is abstract: in the source a page key is either an int
or, when unparsable, the raw string label (line 225).
-/
structure Model (α : Type) [DecidableEq α] where
  baseIncluded : String → Finset α
  autoExcl : String → Finset α
  excludeGlobal : Finset String
  exPages : Finset (String × α)
  inPages : Finset (String × α)

variable {α : Type} [DecidableEq α]

/-- Pages force-included for key `k`: `{pp for (nn, pp) in in_pages_set if nn == norm}`
(server.py line 379, and the additions of lines 370-372). -/
def forcedPages (m : Model α) (k : String) : Finset α :=
  (m.inPages.filter (fun q => q.1 = k)).image Prod.snd

/--
`pages_inc` as computed by server.py lines 364-380:
start from the base pages, add the force-included pages, discard pages in
`ex_pages_set` that are not re-included, and, when `k` is globally
excluded, keep only the force-included pages.
-/
def pagesInc (m : Model α) (k : String) : Finset α :=
  let withForced := m.baseIncluded k ∪ forcedPages m k
  let afterExPages :=
    withForced.filter (fun p => ¬((k, p) ∈ m.exPages ∧ (k, p) ∉ m.inPages))
  if k ∈ m.excludeGlobal then forcedPages m k else afterExPages

/--
`pages_exc` as computed by server.py lines 382-395: base pages that did not
remain included, plus auto-rejected pages that were neither re-included by
the user nor otherwise kept.
-/
def pagesExc (m : Model α) (k : String) : Finset α :=
  ((m.baseIncluded k).filter (fun p => p ∉ pagesInc m k)) ∪
    ((m.autoExcl k).filter (fun p => (k, p) ∉ m.inPages ∧ p ∉ pagesInc m k))

/--
`final_included[norm].pages` (server.py lines 397-402): emitted only when
at least one page stays alive; an absent entry is rendered as the empty
page set.
-/
def finalIncludedPages (m : Model α) (k : String) : Finset α :=
  if (pagesInc m k).Nonempty then pagesInc m k else ∅

/--
`final_excluded[norm].pages` (server.py lines 404-411): emitted when the
key is globally excluded or some page was excluded; an absent entry is
rendered as the empty page set.
-/
def finalExcludedPages (m : Model α) (k : String) : Finset α :=
  if k ∈ m.excludeGlobal ∨ (pagesExc m k).Nonempty then pagesExc m k else ∅

end Reconcile

namespace Fix

/-- Scenario of spec section 8: `cerignola` appears on pages 52 and 53, the user
excludes it globally but force-includes page 53. -/
def cerignolaModel : Reconcile.Model ℕ where
  baseIncluded := fun k => if k = "cerignola" then {52, 53} else ∅
  autoExcl := fun _ => ∅
  excludeGlobal := {"cerignola"}
  exPages := ∅
  inPages := {("cerignola", 53)}

/-- Fixture for per-page exclusion: both keys appear in the raw set; the pair
(x, 1) is excluded with no forced inclusion, while (y, 2) is excluded but
also force-included. -/
def pageExclModel : Reconcile.Model ℕ where
  baseIncluded := fun k => if k = "x" then {1} else if k = "y" then {2} else ∅
  autoExcl := fun _ => ∅
  excludeGlobal := ∅
  exPages := {("x", 1), ("y", 2)}
  inPages := {("y", 2)}

end Fix

namespace Normalize

/--
Abstract character alphabet with the Unicode primitives used by
`normalize_name` (processor/utils.py lines 31-39): charwise NFKD
decomposition, the combining-mark test `unicodedata.combining`, the
whitespace test of the regex \s, lowercasing, and the literal space
character written by `re.sub`. NFKD also canonically reorders combining
marks; since the very next pipeline step removes every combining mark,
that reordering is invisible and the decomposition is modelled charwise.
-/
structure CharModel (σ : Type) where
  nfkd : σ → List σ
  combining : σ → Bool
  isSpace : σ → Bool
  lower : σ → σ
  sp : σ

variable {σ : Type}

/-- Step `s = unicodedata.normalize("NFKD", s or "")` (utils.py line 36). -/
def nfkdStr (M : CharModel σ) (s : List σ) : List σ := s.flatMap M.nfkd

/-- Step `s = "".join(ch for ch in s if not unicodedata.combining(ch))`
(utils.py line 37). -/
def stripCombining (M : CharModel σ) (s : List σ) : List σ :=
  s.filter (fun c => !M.combining c)

/-- Scan of `re.sub(r"\s+", " ", s)`: each maximal run of whitespace
becomes one space character; the flag records whether the scan is inside a
whitespace run. -/
def collapseGo (M : CharModel σ) : Bool → List σ → List σ
  | _, [] => []
  | prevSpace, c :: rest =>
    if M.isSpace c then
      if prevSpace then collapseGo M true rest
      else M.sp :: collapseGo M true rest
    else c :: collapseGo M false rest

/-- Step `s = re.sub(r"\s+", " ", s)` (utils.py line 38). -/
def collapseWS (M : CharModel σ) (s : List σ) : List σ := collapseGo M false s

/-- Step `.strip()`: remove leading and trailing whitespace (line 39). -/
def strip (M : CharModel σ) (s : List σ) : List σ :=
  ((s.dropWhile M.isSpace).reverse.dropWhile M.isSpace).reverse

/-- Step `.lower()`, charwise (utils.py line 39). -/
def lowerStr (M : CharModel σ) (s : List σ) : List σ := s.map M.lower

/-- processor.utils.normalize_name (utils.py lines 31-39): NFKD, drop
combining marks, collapse whitespace runs, strip, lowercase. -/
def normalize_name (M : CharModel σ) (s : List σ) : List σ :=
  let s1 := nfkdStr M s
  let s2 := stripCombining M s1
  let s3 := collapseWS M s2
  lowerStr M (strip M s3)

/-- Every whitespace character of `l` is the literal space character and
no two adjacent characters are both whitespace. -/
def SpacesOk (M : CharModel σ) (l : List σ) : Prop :=
  (∀ c ∈ l, M.isSpace c = true → c = M.sp) ∧
    l.Chain' (fun a b => M.isSpace a = true → M.isSpace b = false)

/-- Properties of the Unicode primitives that `normalize_name` relies on;
they hold of the real Unicode tables for the characters reachable in the
pipeline (NFKD output characters have no further decomposition, case
mapping preserves NFKD-stability, the combining-mark property and the
whitespace property, lowercasing is idempotent, and the space character is
a stable non-combining whitespace fixed point of lowercasing). -/
structure Laws (M : CharModel σ) : Prop where
  nfkd_stable : ∀ c d, d ∈ M.nfkd c → M.nfkd d = [d]
  lower_nfkd_stable : ∀ d, M.nfkd d = [d] → M.nfkd (M.lower d) = [M.lower d]
  lower_not_combining : ∀ d, M.combining d = false → M.combining (M.lower d) = false
  isSpace_lower : ∀ d, M.isSpace (M.lower d) = M.isSpace d
  lower_idem : ∀ d, M.lower (M.lower d) = M.lower d
  sp_nfkd : M.nfkd M.sp = [M.sp]
  sp_not_combining : M.combining M.sp = false
  sp_isSpace : M.isSpace M.sp = true
  lower_sp : M.lower M.sp = M.sp

end Normalize

namespace Utils

/-- processor.utils._norm (utils.py lines 42-47): defined as
`normalize_name(s)`. -/
def _norm {σ : Type} (M : Normalize.CharModel σ) (s : List σ) : List σ :=
  Normalize.normalize_name M s

end Utils

namespace Server

/-- server._norm (server.py lines 93-97): NFKD, drop combining marks, then
`re.sub(r"\s+", " ", s).strip().lower()`. -/
def _norm {σ : Type} (M : Normalize.CharModel σ) (s : List σ) : List σ :=
  let s1 := Normalize.nfkdStr M s
  let s2 := Normalize.stripCombining M s1
  Normalize.lowerStr M (Normalize.strip M (Normalize.collapseWS M s2))

end Server

namespace Fix

/-- Tiny concrete character model: 0 is the space character, 1 an
uppercase letter whose lowercase is 2, and 2 a lowercase letter. -/
def asciiModel : Normalize.CharModel (Fin 3) where
  nfkd := fun c => [c]
  combining := fun _ => false
  isSpace := fun c => c = 0
  lower := fun c => if c = 1 then 2 else c
  sp := 0

end Fix

namespace Geo

/-- PRIMARY_PLACE_TYPES (geocode.py lines 47-50). -/
def PRIMARY_PLACE_TYPES : List String :=
  ["city", "town", "village", "hamlet", "municipality",
   "city_district", "borough", "quarter", "suburb", "neighbourhood",
   "neighborhood", "locality"]

/-- SECONDARY_PLACE_TYPES (geocode.py lines 51-54). -/
def SECONDARY_PLACE_TYPES : List String :=
  ["county", "province", "region", "state", "country", "island",
   "archipelago", "state_district", "department"]

/-- ACCEPT_BOUNDARY_TYPES (geocode.py line 55). -/
def ACCEPT_BOUNDARY_TYPES : List String := ["administrative"]

/-- Point-of-interest (class, type) pairs accepted at tier 3
(geocode.py lines 156-159). -/
def POI_PAIRS : List (String × String) :=
  [("railway", "station"), ("aeroway", "aerodrome"), ("aeroway", "airport"),
   ("tourism", "attraction"), ("natural", "peak"), ("natural", "bay")]

/--
One raw Nominatim result, restricted to the fields the ranking code reads.
An `Option (Option Int)` admin-level field distinguishes an absent key
(outer `none`) from a present but unparsable value (inner `none`).
`importance` is `none` when absent or unparsable (`_safe_float` then yields
0). Dictionary-valued fields (`namedetails`, `address`) are key/value
lists; `hasLat`/`hasLon` model the key-presence tests `"lat" in hit`.
Floats are modelled as rationals.
-/
structure Hit where
  cls : Option String
  typ : Option String
  extratagsAdminLevel : Option (Option Int)
  adminLevel : Option (Option Int)
  importance : Option ℚ
  hasLat : Bool
  hasLon : Bool
  namedetails : List (String × String)
  displayName : Option String
  address : List (String × String)
  osmType : Option String
  osmId : Option Int
  deriving DecidableEq

/-- `_safe_float` (geocode.py lines 74-78): unusable values become 0. -/
def _safe_float (x : Option ℚ) : ℚ := x.getD 0

/-- Python `str.split(sep)` for a one-character separator, over the
character list: splitting the empty string yields one empty part. -/
def splitListChar (sep : Char) : List Char → List (List Char)
  | [] => [[]]
  | c :: rest =>
    let r := splitListChar sep rest
    if c = sep then [] :: r
    else
      match r with
      | h :: t => (c :: h) :: t
      | [] => [[c]]

/-- Python `str.split(sep)` producing strings. -/
def pySplit (sep : Char) (s : String) : List String :=
  (splitListChar sep s.data).map String.mk

/-- Python `str.strip()` (for the ASCII whitespace occurring here). -/
def pyStrip (s : String) : String :=
  String.mk (((s.data.dropWhile Char.isWhitespace).reverse.dropWhile
    Char.isWhitespace).reverse)

/-- Python `str.startswith(pre)`. -/
def pyStartsWith (pre s : String) : Bool := decide (pre.data <+: s.data)

/-- `_split_semicolon` (geocode.py lines 81-82). -/
def _split_semicolon (s : String) : List String :=
  ((pySplit ';' s).map pyStrip).filter (fun t => t ≠ "")

/-- Python substring test `a in b`. -/
def isSubstr (a b : String) : Bool := decide (a.toList <:+: b.toList)

/-- Dictionary lookup `d.get(k)` over a key/value list. -/
def dget (d : List (String × String)) (k : String) : Option String :=
  (d.find? (fun p => p.1 == k)).map Prod.snd

/--
`_collect_names_for_match` (geocode.py lines 85-112): name, official_name
and short_name from namedetails, the semicolon-separated multivalued keys,
every localized `name:xx` key, and the first comma-part of display_name —
all normalized with `_norm` (passed as `norm`). The Python set is modelled
as a list; only membership matters.
-/
def _collect_names_for_match (norm : String → String) (h : Hit) : List String :=
  let nd := h.namedetails
  let base := (["name", "official_name", "short_name"].filterMap
    (fun k => dget nd k)).filter (fun v => v ≠ "") |>.map norm
  let multi := (["alt_name", "old_name", "loc_name"].flatMap
    (fun k => _split_semicolon ((dget nd k).getD ""))).map norm
  let localized := (nd.filter
    (fun p => pyStartsWith "name:" p.1 && p.2 != "")).map (fun p => norm p.2)
  let disp := ((pySplit ',' (h.displayName.getD "")).headD "")
  let dispPart := if disp ≠ "" then [norm disp] else []
  base ++ multi ++ localized ++ dispPart

/-- `_admin_level` (geocode.py lines 115-126): extratags first, then the
hit itself; unparsable or absent values fall through; default 0. -/
def _admin_level (h : Hit) : Int :=
  match h.extratagsAdminLevel with
  | some (some n) => n
  | _ =>
    match h.adminLevel with
    | some (some n) => n
    | _ => 0

/-- Python `str.lower()` for the ASCII class/type tags, charwise. -/
def pyLower (s : String) : String := String.mk (s.data.map Char.toLower)

/-- `_rank_tier` (geocode.py lines 129-165). Lower is better; 9 is the
reject tier. -/
def _rank_tier (h : Hit) : Nat :=
  let cls := pyLower (h.cls.getD "")
  let typ := pyLower (h.typ.getD "")
  if cls = "place" ∧ typ ∈ PRIMARY_PLACE_TYPES then 0
  else if cls = "boundary" ∧ typ ∈ ACCEPT_BOUNDARY_TYPES then
    let al := _admin_level h
    if 0 < al ∧ al ≤ 4 then 0
    else if 5 ≤ al ∧ al ≤ 6 then 1
    else 2
  else if cls = "place" ∧ typ ∈ SECONDARY_PLACE_TYPES then 2
  else if (cls, typ) ∈ POI_PAIRS then 3
  else if h.hasLat ∧ h.hasLon then 8
  else 9

/-- `_name_match_strength` (geocode.py lines 168-188): 2 for an exact
normalized match, 1 for a strong partial match or a match inside an
address field, 0 otherwise. -/
def _name_match_strength (norm : String → String) (qNorm : String)
    (h : Hit) : Nat :=
  let names := _collect_names_for_match norm h
  if qNorm ∈ names then 2
  else if names.any
      (fun n => 4 ≤ qNorm.length && (isSubstr qNorm n || isSubstr n qNorm))
    then 1
  else if ["country", "state", "region", "province", "county", "city",
      "town", "village"].any (fun k =>
        match dget h.address k with
        | some v => v ≠ "" && 4 ≤ qNorm.length && isSubstr qNorm (norm v)
        | none => false)
    then 1
  else 0

/-- `_rank_key` (geocode.py lines 191-199): the sort key
`(tier, -name_match, -importance)`. -/
def _rank_key (norm : String → String) (h : Hit) (qNorm : String) :
    Nat × Int × ℚ :=
  (_rank_tier h, -(_name_match_strength norm qNorm h : Int),
    -(_safe_float h.importance))

/-- Lexicographic order on rank keys: Python tuple comparison for the
`list.sort(key=...)` call. -/
def rankKeyLE (a b : Nat × Int × ℚ) : Bool :=
  decide (a.1 < b.1) ||
    (decide (a.1 = b.1) &&
      (decide (a.2.1 < b.2.1) ||
        (decide (a.2.1 = b.2.1) && decide (a.2.2 ≤ b.2.2))))

/-- Hit-level comparison used for the sort in `geocode_name_robust`. -/
def hitLE (norm : String → String) (qNorm : String) (a b : Hit) : Bool :=
  rankKeyLE (_rank_key norm a qNorm) (_rank_key norm b qNorm)

/--
Selection phase of `geocode_name_robust` (geocode.py lines 354-367), after
the deduplicated hits of all lookup variants have been collected: an empty
collection fails with `no_results`; otherwise the hits are stably sorted
by `_rank_key` and the first element is taken, failing with
`no_accepted_candidate` when even the best hit has the reject tier. The
returned pair is `(data, reason)` with the hit not yet normalized to a
geometry.
-/
def geocode_name_robust_select (norm : String → String) (name : String)
    (allHits : List Hit) : Option Hit × Option String :=
  let qNorm := norm name
  match allHits.mergeSort (hitLE norm qNorm) with
  | [] => (none, some "no_results")
  | best :: _ =>
    if 9 ≤ _rank_tier best then (none, some "no_accepted_candidate")
    else (some best, none)

/--
One persisted cache value of `geocache_toponyms.json`, partitioned the way
`geocode_with_cache` (geocode.py lines 383-391) tests it: an `ok: true`
entry carrying data, an `ok: false` entry with an optional reason, a
legacy plain hit (a dict with a `class` or `lat` key), a stored `None`,
or any other shape — which the code does not recognize and re-resolves.
The geocoded payload type is abstract (`G`).
-/
inductive CacheEntry (G : Type) where
  | okData (data : G)
  | okReject (reason : Option String)
  | legacyHit (data : G)
  | null
  | malformed
  deriving DecidableEq

/-- Python `x or default` for an optional string (falsy `None` and `""`). -/
def pyOrStr (r : Option String) (d : String) : String :=
  match r with
  | some s => if s = "" then d else s
  | none => d

/-- Lookup `norm_key in cache` / `cache[norm_key]`. -/
def cacheLookup {G : Type} (c : List (String × CacheEntry G)) (k : String) :
    Option (CacheEntry G) :=
  (c.find? (fun p => p.1 == k)).map Prod.snd

/-- Assignment `cache[norm_key] = entry`. -/
def cacheSet {G : Type} (c : List (String × CacheEntry G)) (k : String)
    (e : CacheEntry G) : List (String × CacheEntry G) :=
  (k, e) :: c.filter (fun p => p.1 != k)

/-- Result of one `geocode_with_cache` call: the returned `(data, reason,
cache)` triple, how many times the external resolver ran, and the cache
contents written to disk (`none` when nothing was written). -/
structure GWCResult (G : Type) where
  data : Option G
  reason : Option String
  cache : List (String × CacheEntry G)
  externalCalls : Nat
  persisted : Option (List (String × CacheEntry G))
  deriving DecidableEq

/--
`geocode_with_cache` (geocode.py lines 370-402). `resolve` stands for the
outcome `geocode_name_robust` would produce (it is only consulted on a
miss): a recognized cached entry is returned without any external call;
otherwise the resolver outcome is stored under the normalized key and the
updated cache is persisted before returning.
-/
def geocode_with_cache {G : Type} (norm : String → String)
    (resolve : Option G × Option String) (name : String)
    (cache : List (String × CacheEntry G)) : GWCResult G :=
  let normKey := norm name
  match cacheLookup cache normKey with
  | some (.okData d) => ⟨some d, none, cache, 0, none⟩
  | some (.okReject r) => ⟨none, some (r.getD "cached_reject"), cache, 0, none⟩
  | some (.legacyHit d) => ⟨some d, none, cache, 0, none⟩
  | some .null => ⟨none, some "cached_none", cache, 0, none⟩
  | some .malformed | none =>
    let data := resolve.1
    let reason := resolve.2
    let entry : CacheEntry G :=
      match data with
      | some d => .okData d
      | none => .okReject (some (pyOrStr reason "rejected"))
    let c2 := cacheSet cache normKey entry
    ⟨data, reason, c2, 1, some c2⟩

/-- A resolver outcome of the shape `geocode_name_robust` actually
returns: `(data, None)` on success or `(None, reason)` with a non-empty
typed reason on failure. -/
def WFOutcome {G : Type} (o : Option G × Option String) : Prop :=
  (∃ d, o = (some d, none)) ∨ (∃ r, o = ((none : Option G), some r) ∧ r ≠ "")

/-- One distinct term of the active CSV with its pages, as produced by
`_collect_occurrences_by_term` (geocode.py lines 568-593). -/
structure TermOcc where
  raw : String
  pages : List String
  deriving DecidableEq

/-- Result of the `phase_geocode_grouped` loop: geocoded features
(abstracted to payload and term), reject rows `(term, reason)`, the final
cache, and the emitted progress events `(done, total, current)`. -/
structure BatchResult (G : Type) where
  features : List (G × TermOcc)
  rejects : List (String × String)
  cache : List (String × CacheEntry G)
  events : List (Nat × Nat × Option String)
  deriving DecidableEq

/-- The `for i, item in enumerate(terms, start=1)` loop of
`phase_geocode_grouped` (geocode.py lines 634-656): emit
`progress_cb(i-1, total, item.raw)`, resolve through the cache, then
append a feature on success or a reject row on rejection. -/
def batchGo {G : Type} (norm : String → String)
    (resolve : String → Option G × Option String) (total : Nat) :
    Nat → List TermOcc → List (String × CacheEntry G) → BatchResult G
  | _, [], cache => ⟨[], [], cache, []⟩
  | i, item :: rest, cache =>
    let ev := (i - 1, total, some item.raw)
    let r := geocode_with_cache norm (resolve item.raw) item.raw cache
    let tail := batchGo norm resolve total (i + 1) rest r.cache
    match r.data with
    | none =>
      ⟨tail.features, (item.raw, pyOrStr r.reason "rejected") :: tail.rejects,
        tail.cache, ev :: tail.events⟩
    | some d =>
      ⟨(d, item) :: tail.features, tail.rejects, tail.cache, ev :: tail.events⟩

/-- `phase_geocode_grouped` with a progress callback (geocode.py lines
608-678): run the loop over the distinct terms and emit the final
notification `progress_cb(total, total, None)`. -/
def phase_geocode_grouped {G : Type} (norm : String → String)
    (resolve : String → Option G × Option String) (terms : List TermOcc)
    (cache : List (String × CacheEntry G)) : BatchResult G :=
  let total := terms.length
  let r := batchGo norm resolve total 1 terms cache
  ⟨r.features, r.rejects, r.cache, r.events ++ [(total, total, none)]⟩

end Geo

namespace Fix

/-- A hit with tier 0 (place/city) and empty matching data. -/
def hitA : Geo.Hit where
  cls := some "place"
  typ := some "city"
  extratagsAdminLevel := none
  adminLevel := none
  importance := none
  hasLat := true
  hasLon := true
  namedetails := []
  displayName := none
  address := []
  osmType := some "node"
  osmId := some 1

/-- A second hit identical to `hitA` for ranking purposes but a different
result (another OSM id). -/
def hitB : Geo.Hit where
  cls := some "place"
  typ := some "city"
  extratagsAdminLevel := none
  adminLevel := none
  importance := none
  hasLat := true
  hasLon := true
  namedetails := []
  displayName := none
  address := []
  osmType := some "node"
  osmId := some 2

/-- A hit with no recognized category and no coordinates: reject tier 9. -/
def hitBad : Geo.Hit where
  cls := none
  typ := none
  extratagsAdminLevel := none
  adminLevel := none
  importance := none
  hasLat := false
  hasLon := false
  namedetails := []
  displayName := none
  address := []
  osmType := some "node"
  osmId := some 3

end Fix

namespace Store

/--
Model of a parsed JSON value, as loaded by `json.load`. Numbers are
modelled as integers: the values the loaders inspect are page numbers and
flags, and no float reaches the loader logic.
-/
inductive JVal where
  | null
  | bool (b : Bool)
  | num (n : Int)
  | str (s : String)
  | arr (items : List JVal)
  | obj (fields : List (String × JVal))

/-- Python truthiness of a JSON value. -/
def jTruthy : JVal → Bool
  | .null => false
  | .bool b => b
  | .num n => n != 0
  | .str s => s != ""
  | .arr l => !l.isEmpty
  | .obj f => !f.isEmpty

/-- Python `k in v` for a string key `k`: key membership for an object,
element comparison for an array, substring test for a string, and a
TypeError for the non-container values. -/
def jHasKey (v : JVal) (k : String) : Except String Bool :=
  match v with
  | .obj fs => .ok (fs.any (fun p => p.1 == k))
  | .arr l => .ok (l.any (fun x =>
      match x with
      | .str s => s == k
      | _ => false))
  | .str s => .ok (decide (k.data <:+: s.data))
  | _ => .error "TypeError"

/-- Replace or append a field of an object field list. -/
def setField (fs : List (String × JVal)) (k : String) (x : JVal) :
    List (String × JVal) :=
  if fs.any (fun p => p.1 == k) then
    fs.map (fun p => if p.1 == k then (p.1, x) else p)
  else fs ++ [(k, x)]

/-- Python item assignment `v[k] = x`: a TypeError unless `v` is an
object. -/
def jSetItem (v : JVal) (k : String) (x : JVal) : Except String JVal :=
  match v with
  | .obj fs => .ok (.obj (setField fs k x))
  | _ => .error "TypeError"

/-- Python `v.get(k)` (`None` when the key is absent): an AttributeError
unless `v` is an object. -/
def jGet (v : JVal) (k : String) : Except String JVal :=
  match v with
  | .obj fs => .ok (((fs.find? (fun p => p.1 == k)).map Prod.snd).getD .null)
  | _ => .error "AttributeError"

/-- Python `v.get(k, d)` with an explicit default. -/
def jGetD (v : JVal) (k : String) (d : JVal) : Except String JVal :=
  match v with
  | .obj fs => .ok (((fs.find? (fun p => p.1 == k)).map Prod.snd).getD d)
  | _ => .error "AttributeError"

/-- Python iteration `for x in v`: a TypeError for non-iterable values.
Iterating a string yields its characters; iterating an object its keys. -/
def jIter (v : JVal) : Except String (List JVal) :=
  match v with
  | .arr l => .ok l
  | .str s => .ok (s.data.map (fun c => .str (String.mk [c])))
  | .obj fs => .ok (fs.map (fun p => .str p.1))
  | _ => .error "TypeError"

/-- Python `int(x)` on the value shapes occurring in the loaders, as an
option: the loaders catch the conversion error locally (`except:
continue`). -/
def pyIntOpt : JVal → Option Int
  | .num n => some n
  | .bool b => some (if b then 1 else 0)
  | .str s => s.toInt?
  | _ => none

/-- One sanitized `{name_norm, page}` attestation record. -/
structure Attest where
  name_norm : String
  page : Int
  deriving DecidableEq

/-- The inner `_clean_pairs` of `_load_raw_exclusions` (exclusions.py
lines 93-106): keep dictionary rows whose `page` converts to an int and
whose `name_norm` is a non-blank string, normalizing the name. -/
def _clean_pairs (norm : String → String) (rows : List JVal) : List Attest :=
  rows.filterMap (fun row =>
    match row with
    | .obj fs =>
      let nm := ((fs.find? (fun p => p.1 == "name_norm")).map Prod.snd).getD
        .null
      let pg := ((fs.find? (fun p => p.1 == "page")).map Prod.snd).getD .null
      match pyIntOpt pg with
      | none => none
      | some pgInt =>
        match nm with
        | .str s => if Geo.pyStrip s ≠ "" then some ⟨norm s, pgInt⟩ else none
        | _ => none
    | _ => none)

/-- The normalized override-state record produced by
`_load_raw_exclusions`. -/
structure RawExclusions where
  excluded_toponyms : List String
  excluded_attestations : List Attest
  forced_include_attestations : List Attest
  deriving DecidableEq

/-- The empty default returned for a missing or unparsable file. -/
def emptyRawExclusions : RawExclusions := ⟨[], [], []⟩

/--
`_load_raw_exclusions` (exclusions.py lines 54-115). The persisted file is
`none` when missing and `some none` when present but not parseable as
JSON; both cases are absorbed into the empty state. A parsed value is
processed with Python's fallible operations: `in`, item assignment and
iteration raise a TypeError on non-container, non-object and non-iterable
values respectively, `.get` raises an AttributeError on a non-object, and
such an error propagates out of the loader.
-/
def _load_raw_exclusions (norm : String → String)
    (file : Option (Option JVal)) : Except String RawExclusions := do
  match file with
  | none => return emptyRawExclusions
  | some none => return emptyRawExclusions
  | some (some data0) =>
    let hasTopo ← jHasKey data0 "excluded_toponyms"
    let hasLegacy ← jHasKey data0 "excluded"
    let data1 ←
      if !hasTopo && hasLegacy then do
        let g ← jGet data0 "excluded"
        let gl ← jIter (if jTruthy g then g else .arr [])
        jSetItem data0 "excluded_toponyms" (.arr gl)
      else pure data0
    let hasEx ← jHasKey data1 "excluded_attestations"
    let data2 ←
      if !hasEx then jSetItem data1 "excluded_attestations" (.arr [])
      else pure data1
    let hasInc ← jHasKey data2 "forced_include_attestations"
    let data3 ←
      if !hasInc then jSetItem data2 "forced_include_attestations" (.arr [])
      else pure data2
    let t ← jGet data3 "excluded_toponyms"
    let tv := if jTruthy t then t else .arr []
    let a ← jGet data3 "excluded_attestations"
    let av := if jTruthy a then a else .arr []
    let f ← jGet data3 "forced_include_attestations"
    let fv := if jTruthy f then f else .arr []
    let avl ← jIter av
    let fvl ← jIter fv
    let tl ← jIter tv
    return ⟨tl.filterMap (fun x =>
        match x with
        | .str s => some s
        | _ => none),
      _clean_pairs norm avl, _clean_pairs norm fvl⟩

/-- The `(exclude_global, exclude_pages, include_pages)` record returned
by `server._load_user_state`; the fields are raw JSON values — beyond the
falsy-to-empty-list defaulting the function does not validate them. -/
structure UserState where
  exclude_global : JVal
  exclude_pages : JVal
  include_pages : JVal

/-- `server._load_user_state` (server.py lines 120-150): a missing file
yields empty lists and a JSON parse failure is absorbed into `{}`, but
the `.get` calls raise an AttributeError when the file parses to a
non-object value. -/
def _load_user_state (file : Option (Option JVal)) :
    Except String UserState := do
  match file with
  | none => return ⟨.arr [], .arr [], .arr []⟩
  | some parsed =>
    let data := parsed.getD (.obj [])
    let eg ← jGetD data "exclude_global" (.arr [])
    let ep ← jGetD data "exclude_pages" (.arr [])
    let ip ← jGetD data "include_pages" (.arr [])
    return ⟨if jTruthy eg then eg else .arr [],
      if jTruthy ep then ep else .arr [],
      if jTruthy ip then ip else .arr []⟩

end Store

namespace Reconcile

variable {α : Type} [DecidableEq α]

theorem finalIncludedPages_eq (m : Model α) (k : String) :
    finalIncludedPages m k = pagesInc m k := by
  unfold finalIncludedPages
  split
  · rfl
  · next h => simp [Finset.not_nonempty_iff_eq_empty.mp h]

theorem finalExcludedPages_eq (m : Model α) (k : String) :
    finalExcludedPages m k = pagesExc m k := by
  unfold finalExcludedPages
  split
  · rfl
  · next h =>
    push_neg at h
    simp [Finset.not_nonempty_iff_eq_empty.mp h.2]

theorem mem_forcedPages {m : Model α} {k : String} {p : α} :
    p ∈ forcedPages m k ↔ (k, p) ∈ m.inPages := by
  unfold forcedPages
  constructor
  · intro h
    rcases Finset.mem_image.mp h with ⟨q, hq, hsnd⟩
    rcases Finset.mem_filter.mp hq with ⟨hmem, hk⟩
    have hq2 : q = (k, p) := Prod.ext hk hsnd
    rwa [hq2] at hmem
  · intro h
    exact Finset.mem_image.mpr ⟨(k, p), Finset.mem_filter.mpr ⟨h, rfl⟩, rfl⟩

theorem not_mem_pagesExc_of_mem_pagesInc {m : Model α} {k : String} {p : α}
    (h : p ∈ pagesInc m k) : p ∉ pagesExc m k := by
  unfold pagesExc
  intro hmem
  rcases Finset.mem_union.mp hmem with hb | ha
  · exact (Finset.mem_filter.mp hb).2 h
  · exact (Finset.mem_filter.mp ha).2.2 h

theorem mem_pagesInc_of_forced {m : Model α} {k : String} {p : α}
    (h : (k, p) ∈ m.inPages) : p ∈ pagesInc m k := by
  unfold pagesInc
  split
  · exact mem_forcedPages.mpr h
  · refine Finset.mem_filter.mpr ⟨?_, ?_⟩
    · exact Finset.mem_union_right _ (mem_forcedPages.mpr h)
    · intro hc
      exact absurd h hc.2

theorem pagesInc_of_global {m : Model α} {k : String}
    (hg : k ∈ m.excludeGlobal) : pagesInc m k = forcedPages m k := by
  unfold pagesInc
  exact if_pos hg

theorem not_mem_pagesInc_of_excluded {m : Model α} {k : String} {p : α}
    (hex : (k, p) ∈ m.exPages) (hnin : (k, p) ∉ m.inPages) :
    p ∉ pagesInc m k := by
  unfold pagesInc
  split
  · intro hc
    exact hnin (mem_forcedPages.mp hc)
  · intro hc
    exact (Finset.mem_filter.mp hc).2 ⟨hex, hnin⟩

end Reconcile

/--
C1: if term key `k` is globally excluded, the final included-page set for
`k` is exactly the set of pages force-included for `k`
(`{p : (k, p) ∈ includePages}`); in particular every page `p` that is
force-included while `k` is globally excluded appears in
`finalIncluded[k].pages` and does not appear in `finalExcluded[k].pages`.
-/
theorem global_exclusion_loses_to_forced_inclusion
    {α : Type} [DecidableEq α] (m : Reconcile.Model α) (k : String) (p : α)
    (hg : k ∈ m.excludeGlobal) (hin : (k, p) ∈ m.inPages) :
    Reconcile.finalIncludedPages m k = Reconcile.forcedPages m k ∧
    p ∈ Reconcile.finalIncludedPages m k ∧
    p ∉ Reconcile.finalExcludedPages m k := by
  have hinc : Reconcile.finalIncludedPages m k = Reconcile.forcedPages m k := by
    rw [Reconcile.finalIncludedPages_eq, Reconcile.pagesInc_of_global hg]
  refine ⟨hinc, ?_, ?_⟩
  · rw [hinc]
    exact Reconcile.mem_forcedPages.mpr hin
  · rw [Reconcile.finalExcludedPages_eq]
    exact Reconcile.not_mem_pagesExc_of_mem_pagesInc
      (Reconcile.mem_pagesInc_of_forced hin)

/-- Witness for C1 on the Cerignola scenario. -/
theorem global_exclusion_loses_to_forced_inclusion_witness :
    ("cerignola" ∈ Fix.cerignolaModel.excludeGlobal ∧
      ("cerignola", 53) ∈ Fix.cerignolaModel.inPages) ∧
    (Reconcile.finalIncludedPages Fix.cerignolaModel "cerignola" =
        Reconcile.forcedPages Fix.cerignolaModel "cerignola" ∧
      53 ∈ Reconcile.finalIncludedPages Fix.cerignolaModel "cerignola" ∧
      53 ∉ Reconcile.finalExcludedPages Fix.cerignolaModel "cerignola") :=
  ⟨⟨by decide, by decide⟩,
    global_exclusion_loses_to_forced_inclusion Fix.cerignolaModel "cerignola" 53
      (by decide) (by decide)⟩

/--
C2: a pair `(k, p)` in `excludePages` removes page `p` from the included
pages of `k` when it is not force-included — even when `k` appears on
page `p` in the raw extraction set — while a force-included pair stays
included.
-/
theorem page_exclusion_yields_to_forced_inclusion
    {α : Type} [DecidableEq α] (m : Reconcile.Model α) (k : String) (p : α)
    (hex : (k, p) ∈ m.exPages) :
    ((k, p) ∉ m.inPages → p ∉ Reconcile.finalIncludedPages m k) ∧
    ((k, p) ∈ m.inPages → p ∈ Reconcile.finalIncludedPages m k) := by
  constructor
  · intro hnin
    rw [Reconcile.finalIncludedPages_eq]
    exact Reconcile.not_mem_pagesInc_of_excluded hex hnin
  · intro hin
    rw [Reconcile.finalIncludedPages_eq]
    exact Reconcile.mem_pagesInc_of_forced hin

/-- Witness for C2: (x, 1) is page-excluded with no forced inclusion and
drops out although `x` appears on page 1 in the raw set; (y, 2) is
page-excluded but force-included and stays. -/
theorem page_exclusion_yields_to_forced_inclusion_witness :
    (("x", 1) ∈ Fix.pageExclModel.exPages ∧
      1 ∈ Fix.pageExclModel.baseIncluded "x" ∧
      1 ∉ Reconcile.finalIncludedPages Fix.pageExclModel "x") ∧
    (("y", 2) ∈ Fix.pageExclModel.exPages ∧
      2 ∈ Reconcile.finalIncludedPages Fix.pageExclModel "y") :=
  ⟨⟨by decide, by decide,
      (page_exclusion_yields_to_forced_inclusion Fix.pageExclModel "x" 1
        (by decide)).1 (by decide)⟩,
    ⟨by decide,
      (page_exclusion_yields_to_forced_inclusion Fix.pageExclModel "y" 2
        (by decide)).2 (by decide)⟩⟩

/--
C10: for every combination of raw extraction set, auto-rejected set and
override state, and every term key, the page sets reported by the resolved
model are disjoint: no page is both in `finalIncluded[k].pages` and in
`finalExcluded[k].pages`.
-/
theorem final_included_excluded_disjoint
    {α : Type} [DecidableEq α] (m : Reconcile.Model α) (k : String) :
    Disjoint (Reconcile.finalIncludedPages m k)
      (Reconcile.finalExcludedPages m k) := by
  rw [Reconcile.finalIncludedPages_eq, Reconcile.finalExcludedPages_eq,
    Finset.disjoint_left]
  intro p hp
  exact Reconcile.not_mem_pagesExc_of_mem_pagesInc hp

namespace Normalize

variable {σ : Type}

@[simp] theorem collapseGo_nil (M : CharModel σ) (b : Bool) :
    collapseGo M b [] = [] := by
  rw [collapseGo]

theorem collapseGo_cons (M : CharModel σ) (b : Bool) (c : σ) (rest : List σ) :
    collapseGo M b (c :: rest) =
      if M.isSpace c then
        if b then collapseGo M true rest else M.sp :: collapseGo M true rest
      else c :: collapseGo M false rest := by
  rw [collapseGo]

theorem nfkdStr_eq_self (M : CharModel σ) {l : List σ}
    (h : ∀ c ∈ l, M.nfkd c = [c]) : nfkdStr M l = l := by
  induction l with
  | nil => rfl
  | cons c rest ih =>
    have hrest : nfkdStr M rest = rest :=
      ih (fun d hd => h d (List.mem_cons_of_mem c hd))
    rw [nfkdStr, List.flatMap_cons, h c (List.mem_cons_self c rest)]
    rw [show rest.flatMap M.nfkd = nfkdStr M rest from rfl, hrest]
    rfl

theorem stripCombining_eq_self (M : CharModel σ) {l : List σ}
    (h : ∀ c ∈ l, M.combining c = false) : stripCombining M l = l := by
  unfold stripCombining
  exact List.filter_eq_self.mpr (fun c hc => by rw [h c hc]; rfl)

theorem collapseGo_cons_sp_true (M : CharModel σ) {c : σ}
    (h : M.isSpace c = true) (rest : List σ) :
    collapseGo M true (c :: rest) = collapseGo M true rest := by
  rw [collapseGo_cons, h, if_pos rfl, if_pos rfl]

theorem collapseGo_cons_sp_false (M : CharModel σ) {c : σ}
    (h : M.isSpace c = true) (rest : List σ) :
    collapseGo M false (c :: rest) = M.sp :: collapseGo M true rest := by
  rw [collapseGo_cons, h, if_pos rfl, if_neg (by decide)]

theorem collapseGo_cons_nsp (M : CharModel σ) (b : Bool) {c : σ}
    (h : M.isSpace c = false) (rest : List σ) :
    collapseGo M b (c :: rest) = c :: collapseGo M false rest := by
  rw [collapseGo_cons, h, if_neg (by decide)]

theorem mem_collapseGo (M : CharModel σ) {c : σ} :
    ∀ (b : Bool) (l : List σ), c ∈ collapseGo M b l →
      c = M.sp ∨ (c ∈ l ∧ M.isSpace c = false) := by
  intro b l
  induction l generalizing b with
  | nil =>
    intro h
    rw [collapseGo_nil] at h
    cases h
  | cons d rest ih =>
    intro h
    cases hd : M.isSpace d with
    | true =>
      cases b with
      | true =>
        rw [collapseGo_cons_sp_true M hd] at h
        rcases ih true h with h1 | h2
        · exact Or.inl h1
        · exact Or.inr ⟨List.mem_cons_of_mem d h2.1, h2.2⟩
      | false =>
        rw [collapseGo_cons_sp_false M hd] at h
        rcases List.mem_cons.mp h with h1 | h1
        · exact Or.inl h1
        · rcases ih true h1 with h2 | h2
          · exact Or.inl h2
          · exact Or.inr ⟨List.mem_cons_of_mem d h2.1, h2.2⟩
    | false =>
      rw [collapseGo_cons_nsp M b hd] at h
      rcases List.mem_cons.mp h with h1 | h1
      · subst h1
        exact Or.inr ⟨List.mem_cons_self c rest, hd⟩
      · rcases ih false h1 with h2 | h2
        · exact Or.inl h2
        · exact Or.inr ⟨List.mem_cons_of_mem d h2.1, h2.2⟩

theorem head_collapseGo_true (M : CharModel σ) :
    ∀ (l : List σ) {c : σ}, (collapseGo M true l).head? = some c →
      M.isSpace c = false := by
  intro l
  induction l with
  | nil =>
    intro c h
    rw [collapseGo_nil] at h
    cases h
  | cons d rest ih =>
    intro c h
    cases hd : M.isSpace d with
    | true =>
      rw [collapseGo_cons_sp_true M hd] at h
      exact ih h
    | false =>
      rw [collapseGo_cons_nsp M true hd, List.head?_cons] at h
      cases h
      exact hd

theorem spacesOk_collapseGo (M : CharModel σ) :
    ∀ (b : Bool) (l : List σ), SpacesOk M (collapseGo M b l) := by
  intro b l
  induction l generalizing b with
  | nil =>
    rw [collapseGo_nil]
    exact ⟨fun c hc => absurd hc (List.not_mem_nil c), List.chain'_nil⟩
  | cons d rest ih =>
    cases hd : M.isSpace d with
    | true =>
      cases b with
      | true =>
        rw [collapseGo_cons_sp_true M hd]
        exact ih true
      | false =>
        rw [collapseGo_cons_sp_false M hd]
        refine ⟨?_, ?_⟩
        · intro c hc hcs
          rcases List.mem_cons.mp hc with h1 | h1
          · exact h1
          · rcases mem_collapseGo M true rest h1 with h2 | h2
            · exact h2
            · rw [h2.2] at hcs; cases hcs
        · refine List.chain'_cons'.mpr ⟨?_, (ih true).2⟩
          intro y hy _
          exact head_collapseGo_true M rest hy
    | false =>
      rw [collapseGo_cons_nsp M b hd]
      refine ⟨?_, ?_⟩
      · intro c hc hcs
        rcases List.mem_cons.mp hc with h1 | h1
        · rw [h1] at hcs; rw [hcs] at hd; cases hd
        · rcases mem_collapseGo M false rest h1 with h2 | h2
          · exact h2
          · rw [h2.2] at hcs; cases hcs
      · refine List.chain'_cons'.mpr ⟨?_, (ih false).2⟩
        intro y hy hds
        rw [hds] at hd; cases hd

theorem collapseGo_eq_self (M : CharModel σ) :
    ∀ (l : List σ), SpacesOk M l → collapseGo M false l = l := by
  intro l
  induction l with
  | nil => exact fun _ => rfl
  | cons d rest ih =>
    intro hok
    cases hd : M.isSpace d with
    | true =>
      rw [collapseGo_cons_sp_false M hd]
      have hdsp : d = M.sp := hok.1 d (List.mem_cons_self d rest) hd
      have htail : collapseGo M true rest = rest := by
        cases rest with
        | nil => exact collapseGo_nil M true
        | cons e rest2 =>
          have hrel : M.isSpace e = false := (List.chain'_cons.mp hok.2).1 hd
          have hok2 : SpacesOk M (e :: rest2) :=
            ⟨fun c hc => hok.1 c (List.mem_cons_of_mem d hc),
              (List.chain'_cons.mp hok.2).2⟩
          have hrec := ih hok2
          rw [collapseGo_cons_nsp M false hrel] at hrec
          rw [collapseGo_cons_nsp M true hrel]
          exact hrec
      rw [hdsp, htail]
    | false =>
      rw [collapseGo_cons_nsp M false hd]
      have hok2 : SpacesOk M rest :=
        ⟨fun c hc => hok.1 c (List.mem_cons_of_mem d hc), hok.2.tail⟩
      rw [ih hok2]

theorem head_dropWhile_false {α : Type} (p : α → Bool) (l : List α) {c : α}
    (h : (l.dropWhile p).head? = some c) : p c = false := by
  have hm := List.head?_dropWhile_not p l
  rw [h] at hm
  exact hm

theorem dropWhile_eq_self_of_head {α : Type} {p : α → Bool} {l : List α}
    (h : ∀ c, l.head? = some c → p c = false) : l.dropWhile p = l := by
  cases l with
  | nil => rfl
  | cons c rest =>
    rw [List.dropWhile_cons, h c rfl]
    simp

theorem head_of_isPre {α : Type} {l1 l2 : List α} (h : l1 <+: l2) {c : α}
    (hc : l1.head? = some c) : l2.head? = some c := by
  obtain ⟨t, rfl⟩ := h
  cases l1 with
  | nil => cases hc
  | cons d r => cases hc; rfl

theorem strip_isPre_dropWhile (M : CharModel σ) (l : List σ) :
    strip M l <+: l.dropWhile M.isSpace := by
  unfold strip
  refine List.reverse_suffix.mp ?_
  rw [List.reverse_reverse]
  exact List.dropWhile_suffix M.isSpace

theorem strip_head_not_space (M : CharModel σ) (l : List σ) {c : σ}
    (h : (strip M l).head? = some c) : M.isSpace c = false :=
  head_dropWhile_false M.isSpace l
    (head_of_isPre (strip_isPre_dropWhile M l) h)

theorem strip_reverse_head_not_space (M : CharModel σ) (l : List σ) {c : σ}
    (h : (strip M l).reverse.head? = some c) : M.isSpace c = false := by
  unfold strip at h
  rw [List.reverse_reverse] at h
  exact head_dropWhile_false M.isSpace _ h

theorem strip_isInfix (M : CharModel σ) (l : List σ) : strip M l <:+: l :=
  ((strip_isPre_dropWhile M l).isInfix).trans
    (List.dropWhile_suffix M.isSpace).isInfix

theorem strip_eq_self (M : CharModel σ) {l : List σ}
    (hh : ∀ c, l.head? = some c → M.isSpace c = false)
    (hr : ∀ c, l.reverse.head? = some c → M.isSpace c = false) :
    strip M l = l := by
  unfold strip
  rw [dropWhile_eq_self_of_head hh, dropWhile_eq_self_of_head hr,
    List.reverse_reverse]

theorem spacesOk_of_isInfix (M : CharModel σ) {l l1 : List σ}
    (hok : SpacesOk M l) (h : l1 <:+: l) : SpacesOk M l1 :=
  ⟨fun c hc hcs => hok.1 c (h.subset hc) hcs, List.Chain'.infix hok.2 h⟩

theorem spacesOk_lowerStr (M : CharModel σ) (hL : Laws M) {l : List σ}
    (hok : SpacesOk M l) : SpacesOk M (lowerStr M l) := by
  constructor
  · intro c hc hcs
    obtain ⟨u, hu, rfl⟩ := List.mem_map.mp hc
    rw [hL.isSpace_lower] at hcs
    rw [hok.1 u hu hcs, hL.lower_sp]
  · refine (List.chain'_map M.lower).mpr ?_
    refine hok.2.imp ?_
    intro a b hab ha
    rw [hL.isSpace_lower] at ha ⊢
    exact hab ha

theorem lowerStr_eq_self (M : CharModel σ) {l : List σ}
    (h : ∀ c ∈ l, M.lower c = c) : lowerStr M l = l := by
  unfold lowerStr
  induction l with
  | nil => rfl
  | cons c rest ih =>
    rw [List.map_cons, h c (List.mem_cons_self c rest),
      ih (fun d hd => h d (List.mem_cons_of_mem c hd))]

theorem mem_normalize_name (M : CharModel σ) (hL : Laws M) {s : List σ}
    {c : σ} (hc : c ∈ normalize_name M s) :
    M.nfkd c = [c] ∧ M.combining c = false ∧ M.lower c = c := by
  have hc2 : c ∈ lowerStr M
      (strip M (collapseWS M (stripCombining M (nfkdStr M s)))) := hc
  obtain ⟨u, hu, rfl⟩ := List.mem_map.mp hc2
  have hu2 : u ∈ collapseWS M (stripCombining M (nfkdStr M s)) :=
    (strip_isInfix M _).subset hu
  rcases mem_collapseGo M false _ hu2 with husp | ⟨hu3, _⟩
  · subst husp
    rw [hL.lower_sp]
    exact ⟨hL.sp_nfkd, hL.sp_not_combining, hL.lower_sp⟩
  · rcases List.mem_filter.mp hu3 with ⟨hu4, hcomb⟩
    obtain ⟨a, _, hua⟩ := List.mem_flatMap.mp hu4
    have hstable : M.nfkd u = [u] := hL.nfkd_stable a u hua
    have hcomb2 : M.combining u = false := by
      simp at hcomb
      exact hcomb
    exact ⟨hL.lower_nfkd_stable u hstable, hL.lower_not_combining u hcomb2,
      hL.lower_idem u⟩

theorem spacesOk_normalize_name (M : CharModel σ) (hL : Laws M) (s : List σ) :
    SpacesOk M (normalize_name M s) := by
  show SpacesOk M (lowerStr M
    (strip M (collapseWS M (stripCombining M (nfkdStr M s)))))
  refine spacesOk_lowerStr M hL ?_
  exact spacesOk_of_isInfix M (spacesOk_collapseGo M false _) (strip_isInfix M _)

theorem head_normalize_name_not_space (M : CharModel σ) (hL : Laws M)
    (s : List σ) {c : σ} (h : (normalize_name M s).head? = some c) :
    M.isSpace c = false := by
  have h2 : (lowerStr M
      (strip M (collapseWS M (stripCombining M (nfkdStr M s))))).head? =
        some c := h
  rw [lowerStr, List.head?_map] at h2
  cases hw : (strip M (collapseWS M (stripCombining M (nfkdStr M s)))).head? with
  | none => rw [hw] at h2; cases h2
  | some u =>
    rw [hw] at h2
    cases h2
    rw [hL.isSpace_lower]
    exact strip_head_not_space M _ hw

theorem reverse_head_normalize_name_not_space (M : CharModel σ) (hL : Laws M)
    (s : List σ) {c : σ} (h : (normalize_name M s).reverse.head? = some c) :
    M.isSpace c = false := by
  have h2 : (lowerStr M
      (strip M (collapseWS M (stripCombining M (nfkdStr M s))))).reverse.head? =
        some c := h
  rw [lowerStr, ← List.map_reverse, List.head?_map] at h2
  cases hw : (strip M (collapseWS M
      (stripCombining M (nfkdStr M s)))).reverse.head? with
  | none => rw [hw] at h2; cases h2
  | some u =>
    rw [hw] at h2
    cases h2
    rw [hL.isSpace_lower]
    exact strip_reverse_head_not_space M _ hw

end Normalize

/--
C6: the normalizer is idempotent — for every string `s` (over any
character model whose Unicode primitives satisfy the properties stated in
`Normalize.Laws`), `normalize(normalize(s)) = normalize(s)`.
-/
theorem normalize_name_idempotent {σ : Type} (M : Normalize.CharModel σ)
    (hL : Normalize.Laws M) (s : List σ) :
    Normalize.normalize_name M (Normalize.normalize_name M s) =
      Normalize.normalize_name M s := by
  have h1 : Normalize.nfkdStr M (Normalize.normalize_name M s) =
      Normalize.normalize_name M s :=
    Normalize.nfkdStr_eq_self M
      (fun c hc => (Normalize.mem_normalize_name M hL hc).1)
  have h2 : Normalize.stripCombining M (Normalize.normalize_name M s) =
      Normalize.normalize_name M s :=
    Normalize.stripCombining_eq_self M
      (fun c hc => (Normalize.mem_normalize_name M hL hc).2.1)
  have h3 : Normalize.collapseWS M (Normalize.normalize_name M s) =
      Normalize.normalize_name M s :=
    Normalize.collapseGo_eq_self M _ (Normalize.spacesOk_normalize_name M hL s)
  have h4 : Normalize.strip M (Normalize.normalize_name M s) =
      Normalize.normalize_name M s :=
    Normalize.strip_eq_self M
      (fun c hc => Normalize.head_normalize_name_not_space M hL s hc)
      (fun c hc => Normalize.reverse_head_normalize_name_not_space M hL s hc)
  have h5 : Normalize.lowerStr M (Normalize.normalize_name M s) =
      Normalize.normalize_name M s :=
    Normalize.lowerStr_eq_self M
      (fun c hc => (Normalize.mem_normalize_name M hL hc).2.2)
  show Normalize.lowerStr M (Normalize.strip M (Normalize.collapseWS M
      (Normalize.stripCombining M (Normalize.nfkdStr M
        (Normalize.normalize_name M s))))) =
    Normalize.normalize_name M s
  rw [h1, h2, h3, h4, h5]

/-- Witness for C6 on the tiny concrete character model, for an input with
leading, repeated and trailing whitespace and an uppercase letter. -/
theorem normalize_name_idempotent_witness :
    Normalize.Laws Fix.asciiModel ∧
      Normalize.normalize_name Fix.asciiModel
          (Normalize.normalize_name Fix.asciiModel [0, 1, 0, 0, 2, 0]) =
        Normalize.normalize_name Fix.asciiModel [0, 1, 0, 0, 2, 0] :=
  ⟨by constructor <;> decide,
    normalize_name_idempotent Fix.asciiModel (by constructor <;> decide)
      [0, 1, 0, 0, 2, 0]⟩

/--
C7: the two normalizer implementations agree — for every string,
`processor.utils.normalize_name` (also exposed as
`processor.utils._norm`) and `server._norm` compute the same key.
-/
theorem utils_norm_eq_server_norm {σ : Type} (M : Normalize.CharModel σ)
    (s : List σ) :
    Utils._norm M s = Server._norm M s ∧
      Normalize.normalize_name M s = Server._norm M s :=
  ⟨rfl, rfl⟩

namespace Geo

theorem rankKeyLE_iff (a b : Nat × Int × ℚ) :
    rankKeyLE a b = true ↔
      (a.1 < b.1 ∨ (a.1 = b.1 ∧
        (a.2.1 < b.2.1 ∨ (a.2.1 = b.2.1 ∧ a.2.2 ≤ b.2.2)))) := by
  simp [rankKeyLE]

theorem rankKeyLE_refl (a : Nat × Int × ℚ) : rankKeyLE a a = true := by
  rw [rankKeyLE_iff]
  exact Or.inr ⟨rfl, Or.inr ⟨rfl, le_refl _⟩⟩

theorem rankKeyLE_trans {a b c : Nat × Int × ℚ}
    (hab : rankKeyLE a b = true) (hbc : rankKeyLE b c = true) :
    rankKeyLE a c = true := by
  rw [rankKeyLE_iff] at hab hbc ⊢
  rcases hab with h1 | ⟨h1, h2⟩
  · rcases hbc with g1 | ⟨g1, g2⟩
    · exact Or.inl (h1.trans g1)
    · exact Or.inl (g1 ▸ h1)
  · rcases hbc with g1 | ⟨g1, g2⟩
    · exact Or.inl (h1 ▸ g1)
    · refine Or.inr ⟨h1.trans g1, ?_⟩
      rcases h2 with h2 | ⟨h2, h3⟩
      · rcases g2 with g2 | ⟨g2, g3⟩
        · exact Or.inl (h2.trans g2)
        · exact Or.inl (g2 ▸ h2)
      · rcases g2 with g2 | ⟨g2, g3⟩
        · exact Or.inl (h2 ▸ g2)
        · exact Or.inr ⟨h2.trans g2, h3.trans g3⟩

theorem rankKeyLE_total (a b : Nat × Int × ℚ) :
    (rankKeyLE a b || rankKeyLE b a) = true := by
  rw [Bool.or_eq_true, rankKeyLE_iff, rankKeyLE_iff]
  rcases lt_trichotomy a.1 b.1 with h | h | h
  · exact Or.inl (Or.inl h)
  · rcases lt_trichotomy a.2.1 b.2.1 with h2 | h2 | h2
    · exact Or.inl (Or.inr ⟨h, Or.inl h2⟩)
    · rcases le_total a.2.2 b.2.2 with h3 | h3
      · exact Or.inl (Or.inr ⟨h, Or.inr ⟨h2, h3⟩⟩)
      · exact Or.inr (Or.inr ⟨h.symm, Or.inr ⟨h2.symm, h3⟩⟩)
    · exact Or.inr (Or.inr ⟨h.symm, Or.inl h2⟩)
  · exact Or.inr (Or.inl h)

theorem rankKeyLE_antisymm {a b : Nat × Int × ℚ}
    (hab : rankKeyLE a b = true) (hba : rankKeyLE b a = true) : a = b := by
  rw [rankKeyLE_iff] at hab hba
  obtain ⟨a1, a2, a3⟩ := a
  obtain ⟨b1, b2, b3⟩ := b
  rcases hab with h1 | ⟨h1, h2⟩
  · rcases hba with g1 | ⟨g1, g2⟩
    · exact absurd (h1.trans g1) (lt_irrefl _)
    · simp only at h1 g1
      omega
  · rcases hba with g1 | ⟨g1, g2⟩
    · simp only at h1 g1
      omega
    · simp only at h1 h2 g2
      subst h1
      rcases h2 with h2 | ⟨h2, h3⟩
      · rcases g2 with g2 | ⟨g2, g3⟩
        · exact absurd (h2.trans g2) (lt_irrefl _)
        · omega
      · rcases g2 with g2 | ⟨g2, g3⟩
        · omega
        · subst h2
          rw [le_antisymm h3 g3]

theorem mergeSort_head_min {α : Type} (le : α → α → Bool)
    (htr : ∀ a b c, le a b = true → le b c = true → le a c = true)
    (hto : ∀ a b, (le a b || le b a) = true)
    (hre : ∀ a, le a a = true)
    {l : List α} {b : α} {rest : List α} (h : l.mergeSort le = b :: rest) :
    b ∈ l ∧ ∀ x ∈ l, le b x = true := by
  have hperm : (b :: rest).Perm l := by
    rw [← h]
    exact List.mergeSort_perm l le
  refine ⟨hperm.mem_iff.mp (List.mem_cons_self b rest), ?_⟩
  intro x hx
  have hx2 : x ∈ b :: rest := hperm.mem_iff.mpr hx
  rcases List.mem_cons.mp hx2 with rfl | hx3
  · exact hre x
  · have hsorted := List.sorted_mergeSort htr hto l
    rw [h] at hsorted
    exact (List.pairwise_cons.mp hsorted).1 x hx3

theorem hitLE_trans (norm : String → String) (q : String) :
    ∀ a b c, hitLE norm q a b = true → hitLE norm q b c = true →
      hitLE norm q a c = true :=
  fun _ _ _ hab hbc => rankKeyLE_trans hab hbc

theorem hitLE_total (norm : String → String) (q : String) :
    ∀ a b, (hitLE norm q a b || hitLE norm q b a) = true :=
  fun a b => rankKeyLE_total _ _

theorem hitLE_refl (norm : String → String) (q : String) :
    ∀ a, hitLE norm q a a = true :=
  fun _ => rankKeyLE_refl _

theorem cacheLookup_cacheSet {G : Type} (c : List (String × CacheEntry G))
    (k : String) (e : CacheEntry G) :
    cacheLookup (cacheSet c k e) k = some e := by
  simp [cacheLookup, cacheSet, List.find?_cons]

end Geo

/--
C4: the resolver sorts the collected hits ascending by the key
`(tier, -nameMatch, -importance)` and takes the first element: an empty
collection fails with `no_results`; otherwise some minimal-key member
`best` of the hits is selected, returned when its tier is accepted and
rejected with `no_accepted_candidate` when even `best` has tier 9.
-/
theorem resolver_ranking_and_failures (norm : String → String)
    (name : String) (hits : List Geo.Hit) :
    (hits = [] →
      Geo.geocode_name_robust_select norm name hits =
        (none, some "no_results")) ∧
    (hits ≠ [] → ∃ best,
      best ∈ hits ∧
      (∀ h ∈ hits, Geo.rankKeyLE (Geo._rank_key norm best (norm name))
          (Geo._rank_key norm h (norm name)) = true) ∧
      (9 ≤ Geo._rank_tier best →
        Geo.geocode_name_robust_select norm name hits =
          (none, some "no_accepted_candidate")) ∧
      (Geo._rank_tier best < 9 →
        Geo.geocode_name_robust_select norm name hits =
          (some best, none))) := by
  constructor
  · rintro rfl
    simp [Geo.geocode_name_robust_select, List.mergeSort_nil]
  · intro hne
    cases hms : hits.mergeSort (Geo.hitLE norm (norm name)) with
    | nil =>
      exfalso
      have hperm := List.mergeSort_perm hits (Geo.hitLE norm (norm name))
      rw [hms] at hperm
      exact hne (List.perm_nil.mp hperm.symm)
    | cons b rest =>
      obtain ⟨hbmem, hbmin⟩ := Geo.mergeSort_head_min _
        (Geo.hitLE_trans norm (norm name)) (Geo.hitLE_total norm (norm name))
        (Geo.hitLE_refl norm (norm name)) hms
      refine ⟨b, hbmem, hbmin, ?_, ?_⟩
      · intro h9
        simp only [Geo.geocode_name_robust_select, hms]
        rw [if_pos h9]
      · intro h9
        simp only [Geo.geocode_name_robust_select, hms]
        rw [if_neg (by omega)]

/-- Witness for C4: the empty hit list, and a singleton accepted hit. -/
theorem resolver_ranking_and_failures_witness :
    Geo.geocode_name_robust_select id "q" [] = (none, some "no_results") ∧
    (∃ best,
      best ∈ [Fix.hitA] ∧
      (∀ h ∈ [Fix.hitA], Geo.rankKeyLE (Geo._rank_key id best (id "q"))
          (Geo._rank_key id h (id "q")) = true) ∧
      (9 ≤ Geo._rank_tier best →
        Geo.geocode_name_robust_select id "q" [Fix.hitA] =
          (none, some "no_accepted_candidate")) ∧
      (Geo._rank_tier best < 9 →
        Geo.geocode_name_robust_select id "q" [Fix.hitA] =
          (some best, none))) :=
  ⟨(resolver_ranking_and_failures id "q" []).1 rfl,
    (resolver_ranking_and_failures id "q" [Fix.hitA]).2
      (List.cons_ne_nil _ _)⟩

/--
C5 (amended): permuting the hit list never changes the rank key of the
selected candidate nor the typed failure outcome; and when no two distinct
hits share a rank key, the selected candidate itself is independent of the
input order. (As stated, full order-invariance fails: the sort is stable,
so among tied hits the first presented wins — see the counterexample.)
-/
theorem resolver_selection_perm_invariant (norm : String → String)
    (name : String) (l l' : List Geo.Hit) (hperm : l.Perm l') :
    ((Geo.geocode_name_robust_select norm name l).1.map
        (fun h => Geo._rank_key norm h (norm name)) =
      (Geo.geocode_name_robust_select norm name l').1.map
        (fun h => Geo._rank_key norm h (norm name))) ∧
    ((Geo.geocode_name_robust_select norm name l).2 =
      (Geo.geocode_name_robust_select norm name l').2) ∧
    ((∀ a ∈ l, ∀ b ∈ l, Geo._rank_key norm a (norm name) =
        Geo._rank_key norm b (norm name) → a = b) →
      Geo.geocode_name_robust_select norm name l =
        Geo.geocode_name_robust_select norm name l') := by
  cases hms : l.mergeSort (Geo.hitLE norm (norm name)) with
  | nil =>
    have hl : l = [] := by
      have hp := List.mergeSort_perm l (Geo.hitLE norm (norm name))
      rw [hms] at hp
      exact List.perm_nil.mp hp.symm
    have hl' : l' = [] := by
      rw [hl] at hperm
      exact List.perm_nil.mp hperm.symm
    subst hl
    subst hl'
    exact ⟨rfl, rfl, fun _ => rfl⟩
  | cons b1 r1 =>
    cases hms' : l'.mergeSort (Geo.hitLE norm (norm name)) with
    | nil =>
      exfalso
      have hl' : l' = [] := by
        have hp := List.mergeSort_perm l' (Geo.hitLE norm (norm name))
        rw [hms'] at hp
        exact List.perm_nil.mp hp.symm
      rw [hl'] at hperm
      have hl : l = [] := List.perm_nil.mp hperm
      rw [hl, List.mergeSort_nil] at hms
      cases hms
    | cons b2 r2 =>
      obtain ⟨hb1mem, hb1min⟩ := Geo.mergeSort_head_min _
        (Geo.hitLE_trans norm (norm name)) (Geo.hitLE_total norm (norm name))
        (Geo.hitLE_refl norm (norm name)) hms
      obtain ⟨hb2mem, hb2min⟩ := Geo.mergeSort_head_min _
        (Geo.hitLE_trans norm (norm name)) (Geo.hitLE_total norm (norm name))
        (Geo.hitLE_refl norm (norm name)) hms'
      have hb2l : b2 ∈ l := hperm.mem_iff.mpr hb2mem
      have hb1l2 : b1 ∈ l' := hperm.mem_iff.mp hb1mem
      have hkeys : Geo._rank_key norm b1 (norm name) =
          Geo._rank_key norm b2 (norm name) :=
        Geo.rankKeyLE_antisymm (hb1min b2 hb2l) (hb2min b1 hb1l2)
      have htier : Geo._rank_tier b1 = Geo._rank_tier b2 :=
        congrArg Prod.fst hkeys
      by_cases h9 : 9 ≤ Geo._rank_tier b1
      · have e1 : Geo.geocode_name_robust_select norm name l =
            (none, some "no_accepted_candidate") := by
          simp only [Geo.geocode_name_robust_select, hms]
          rw [if_pos h9]
        have e2 : Geo.geocode_name_robust_select norm name l' =
            (none, some "no_accepted_candidate") := by
          simp only [Geo.geocode_name_robust_select, hms']
          rw [if_pos (htier ▸ h9)]
        refine ⟨?_, ?_, ?_⟩
        · rw [e1, e2]
        · rw [e1, e2]
        · intro _
          rw [e1, e2]
      · have e1 : Geo.geocode_name_robust_select norm name l =
            (some b1, none) := by
          simp only [Geo.geocode_name_robust_select, hms]
          rw [if_neg h9]
        have e2 : Geo.geocode_name_robust_select norm name l' =
            (some b2, none) := by
          simp only [Geo.geocode_name_robust_select, hms']
          rw [if_neg (htier ▸ h9)]
        refine ⟨?_, ?_, ?_⟩
        · rw [e1, e2]
          simp only [Option.map_some']
          exact congrArg some hkeys
        · rw [e1, e2]
        · intro hnotie
          have hb12 : b1 = b2 := hnotie b1 hb1mem b2 hb2l hkeys
          rw [e1, e2, hb12]

/-- Witness for C5 (amended) on a singleton hit list and the identity
permutation. -/
theorem resolver_selection_perm_invariant_witness :
    ((Geo.geocode_name_robust_select id "q" [Fix.hitA]).1.map
        (fun h => Geo._rank_key id h (id "q")) =
      (Geo.geocode_name_robust_select id "q" [Fix.hitA]).1.map
        (fun h => Geo._rank_key id h (id "q"))) ∧
    ((Geo.geocode_name_robust_select id "q" [Fix.hitA]).2 =
      (Geo.geocode_name_robust_select id "q" [Fix.hitA]).2) ∧
    ((∀ a ∈ [Fix.hitA], ∀ b ∈ [Fix.hitA], Geo._rank_key id a (id "q") =
        Geo._rank_key id b (id "q") → a = b) →
      Geo.geocode_name_robust_select id "q" [Fix.hitA] =
        Geo.geocode_name_robust_select id "q" [Fix.hitA]) :=
  resolver_selection_perm_invariant id "q" [Fix.hitA] [Fix.hitA]
    (List.Perm.refl _)

theorem mergeSort_pair {α : Type} (le : α → α → Bool) (a b : α) :
    [a, b].mergeSort le = if le a b then [a, b] else [b, a] := by
  simp [List.mergeSort, List.cons_merge_cons]

/-- Counterexample to C5 as stated: two distinct hits with identical rank
keys; the stable sort selects whichever is presented first, so the two
orders of the same multiset yield different candidates. -/
theorem resolver_selection_depends_on_order :
    [Fix.hitA, Fix.hitB].Perm [Fix.hitB, Fix.hitA] ∧
    Fix.hitA ≠ Fix.hitB ∧
    Geo._rank_key id Fix.hitA (id "q") = Geo._rank_key id Fix.hitB (id "q") ∧
    Geo.geocode_name_robust_select id "q" [Fix.hitA, Fix.hitB] =
      (some Fix.hitA, none) ∧
    Geo.geocode_name_robust_select id "q" [Fix.hitB, Fix.hitA] =
      (some Fix.hitB, none) := by
  have hAB : Geo.hitLE id (id "q") Fix.hitA Fix.hitB = true := by decide
  have hBA : Geo.hitLE id (id "q") Fix.hitB Fix.hitA = true := by decide
  refine ⟨List.Perm.swap Fix.hitB Fix.hitA [], by decide, by decide, ?_, ?_⟩
  · have hms : [Fix.hitA, Fix.hitB].mergeSort (Geo.hitLE id (id "q")) =
        [Fix.hitA, Fix.hitB] := by
      rw [mergeSort_pair, hAB, if_pos rfl]
    simp only [Geo.geocode_name_robust_select, hms]
    rw [if_neg (by decide)]
  · have hms : [Fix.hitB, Fix.hitA].mergeSort (Geo.hitLE id (id "q")) =
        [Fix.hitB, Fix.hitA] := by
      rw [mergeSort_pair, hBA, if_pos rfl]
    simp only [Geo.geocode_name_robust_select, hms]
    rw [if_neg (by decide)]

/--
C3: a recognized cached entry (a stored success, stored rejection, legacy
hit, or stored None) is returned as the stored outcome with no external
call and no disk write; a cache miss invokes the resolver once, stores its
outcome under the normalized key and persists the updated cache before
returning; consequently two successive calls for the same term with the
same resolver outcome return identical results and make at most one
external call in total.
-/
theorem geocode_cache_contract {G : Type} (norm : String → String)
    (resolve : Option G × Option String) (name : String)
    (cache : List (String × Geo.CacheEntry G))
    (hwf : Geo.WFOutcome resolve) :
    (∀ d, Geo.cacheLookup cache (norm name) = some (.okData d) →
      Geo.geocode_with_cache norm resolve name cache =
        ⟨some d, none, cache, 0, none⟩) ∧
    (∀ rs, Geo.cacheLookup cache (norm name) = some (.okReject rs) →
      Geo.geocode_with_cache norm resolve name cache =
        ⟨none, some (rs.getD "cached_reject"), cache, 0, none⟩) ∧
    (Geo.cacheLookup cache (norm name) = none →
      (Geo.geocode_with_cache norm resolve name cache).externalCalls = 1 ∧
      (Geo.geocode_with_cache norm resolve name cache).data = resolve.1 ∧
      (Geo.geocode_with_cache norm resolve name cache).reason = resolve.2 ∧
      (Geo.geocode_with_cache norm resolve name cache).persisted =
        some (Geo.geocode_with_cache norm resolve name cache).cache ∧
      Geo.cacheLookup (Geo.geocode_with_cache norm resolve name cache).cache
          (norm name) =
        some (match resolve.1 with
          | some d => .okData d
          | none => .okReject (some (Geo.pyOrStr resolve.2 "rejected")))) ∧
    ((Geo.geocode_with_cache norm resolve name
        (Geo.geocode_with_cache norm resolve name cache).cache).data =
      (Geo.geocode_with_cache norm resolve name cache).data ∧
    (Geo.geocode_with_cache norm resolve name
        (Geo.geocode_with_cache norm resolve name cache).cache).reason =
      (Geo.geocode_with_cache norm resolve name cache).reason ∧
    (Geo.geocode_with_cache norm resolve name cache).externalCalls +
        (Geo.geocode_with_cache norm resolve name
          (Geo.geocode_with_cache norm resolve name cache).cache).externalCalls
      ≤ 1) := by
  have hmiss : ∀ c2 : List (String × Geo.CacheEntry G),
      Geo.cacheLookup c2 (norm name) = none ∨
        Geo.cacheLookup c2 (norm name) = some .malformed →
      Geo.geocode_with_cache norm resolve name c2 =
        ⟨resolve.1, resolve.2,
          Geo.cacheSet c2 (norm name) (match resolve.1 with
            | some d => .okData d
            | none => .okReject (some (Geo.pyOrStr resolve.2 "rejected"))),
          1,
          some (Geo.cacheSet c2 (norm name) (match resolve.1 with
            | some d => .okData d
            | none => .okReject (some (Geo.pyOrStr resolve.2 "rejected"))))⟩ := by
    intro c2 hc2
    rcases hc2 with hc2 | hc2 <;> simp only [Geo.geocode_with_cache, hc2]
  refine ⟨?_, ?_, ?_, ?_⟩
  · intro d hd
    simp only [Geo.geocode_with_cache, hd]
  · intro rs hrs
    simp only [Geo.geocode_with_cache, hrs]
  · intro hnone
    rw [hmiss cache (Or.inl hnone)]
    exact ⟨rfl, rfl, rfl, rfl, Geo.cacheLookup_cacheSet cache (norm name) _⟩
  · cases hlook : Geo.cacheLookup cache (norm name) with
    | none =>
      have e1 := hmiss cache (Or.inl hlook)
      rcases hwf with ⟨d, hd⟩ | ⟨r, hr, hrne⟩
      · subst hd
        have e2 : Geo.geocode_with_cache norm (some d, none) name
            (Geo.cacheSet cache (norm name) (.okData d)) =
            ⟨some d, none, Geo.cacheSet cache (norm name) (.okData d),
              0, none⟩ := by
          simp only [Geo.geocode_with_cache, Geo.cacheLookup_cacheSet]
        simp only [e1] at e2 ⊢
        refine ⟨?_, ?_, ?_⟩ <;> simp [e2]
      · subst hr
        have e2 : Geo.geocode_with_cache norm (none, some r) name
            (Geo.cacheSet cache (norm name)
              (.okReject (some (Geo.pyOrStr (some r) "rejected")))) =
            ⟨none, some (Geo.pyOrStr (some r) "rejected"),
              Geo.cacheSet cache (norm name)
                (.okReject (some (Geo.pyOrStr (some r) "rejected"))),
              0, none⟩ := by
          simp only [Geo.geocode_with_cache, Geo.cacheLookup_cacheSet,
            Option.getD_some]
        have hpy : Geo.pyOrStr (some r) "rejected" = r := by
          simp only [Geo.pyOrStr]
          rw [if_neg hrne]
        rw [hpy] at e2
        refine ⟨?_, ?_, ?_⟩ <;> simp [e1, e2, hpy]
    | some e =>
      cases e with
      | okData d =>
        have e1 : Geo.geocode_with_cache norm resolve name cache =
            ⟨some d, none, cache, 0, none⟩ := by
          simp only [Geo.geocode_with_cache, hlook]
        refine ⟨?_, ?_, ?_⟩ <;> simp [e1]
      | okReject rs =>
        have e1 : Geo.geocode_with_cache norm resolve name cache =
            ⟨none, some (rs.getD "cached_reject"), cache, 0, none⟩ := by
          simp only [Geo.geocode_with_cache, hlook]
        refine ⟨?_, ?_, ?_⟩ <;> simp [e1]
      | legacyHit d =>
        have e1 : Geo.geocode_with_cache norm resolve name cache =
            ⟨some d, none, cache, 0, none⟩ := by
          simp only [Geo.geocode_with_cache, hlook]
        refine ⟨?_, ?_, ?_⟩ <;> simp [e1]
      | null =>
        have e1 : Geo.geocode_with_cache norm resolve name cache =
            ⟨none, some "cached_none", cache, 0, none⟩ := by
          simp only [Geo.geocode_with_cache, hlook]
        refine ⟨?_, ?_, ?_⟩ <;> simp [e1]
      | malformed =>
        have e1 := hmiss cache (Or.inr hlook)
        rcases hwf with ⟨d, hd⟩ | ⟨r, hr, hrne⟩
        · subst hd
          have e2 : Geo.geocode_with_cache norm (some d, none) name
              (Geo.cacheSet cache (norm name) (.okData d)) =
              ⟨some d, none, Geo.cacheSet cache (norm name) (.okData d),
                0, none⟩ := by
            simp only [Geo.geocode_with_cache, Geo.cacheLookup_cacheSet]
          simp only [e1] at e2 ⊢
          refine ⟨?_, ?_, ?_⟩ <;> simp [e2]
        · subst hr
          have e2 : Geo.geocode_with_cache norm (none, some r) name
              (Geo.cacheSet cache (norm name)
                (.okReject (some (Geo.pyOrStr (some r) "rejected")))) =
              ⟨none, some (Geo.pyOrStr (some r) "rejected"),
                Geo.cacheSet cache (norm name)
                  (.okReject (some (Geo.pyOrStr (some r) "rejected"))),
                0, none⟩ := by
            simp only [Geo.geocode_with_cache, Geo.cacheLookup_cacheSet,
              Option.getD_some]
          have hpy : Geo.pyOrStr (some r) "rejected" = r := by
            simp only [Geo.pyOrStr]
            rw [if_neg hrne]
          rw [hpy] at e2
          refine ⟨?_, ?_, ?_⟩ <;> simp [e1, e2, hpy]

/-- Witness for C3: a successful resolver outcome on an empty cache. -/
theorem geocode_cache_contract_witness :
    (∀ d, Geo.cacheLookup ([] : List (String × Geo.CacheEntry Nat))
        (id "t") = some (.okData d) →
      Geo.geocode_with_cache id (some 5, none) "t" [] =
        ⟨some d, none, [], 0, none⟩) ∧
    (∀ rs, Geo.cacheLookup ([] : List (String × Geo.CacheEntry Nat))
        (id "t") = some (.okReject rs) →
      Geo.geocode_with_cache id (some 5, none) "t" [] =
        ⟨none, some (rs.getD "cached_reject"), [], 0, none⟩) ∧
    (Geo.cacheLookup ([] : List (String × Geo.CacheEntry Nat)) (id "t") =
        none →
      (Geo.geocode_with_cache id (some 5, none) "t" []).externalCalls = 1 ∧
      (Geo.geocode_with_cache id (some 5, none) "t" []).data =
        (some 5, (none : Option String)).1 ∧
      (Geo.geocode_with_cache id (some 5, none) "t" []).reason =
        (some 5, (none : Option String)).2 ∧
      (Geo.geocode_with_cache id (some 5, none) "t" []).persisted =
        some (Geo.geocode_with_cache id (some 5, none) "t" []).cache ∧
      Geo.cacheLookup (Geo.geocode_with_cache id (some 5, none) "t" []).cache
          (id "t") =
        some (match (some 5, (none : Option String)).1 with
          | some d => .okData d
          | none => .okReject
              (some (Geo.pyOrStr (some 5, (none : Option String)).2
                "rejected")))) ∧
    ((Geo.geocode_with_cache id (some 5, none) "t"
        (Geo.geocode_with_cache id (some 5, none) "t" []).cache).data =
      (Geo.geocode_with_cache id (some 5, none) "t" []).data ∧
    (Geo.geocode_with_cache id (some 5, none) "t"
        (Geo.geocode_with_cache id (some 5, none) "t" []).cache).reason =
      (Geo.geocode_with_cache id (some 5, none) "t" []).reason ∧
    (Geo.geocode_with_cache id (some 5, none) "t" []).externalCalls +
        (Geo.geocode_with_cache id (some 5, none) "t"
          (Geo.geocode_with_cache id (some 5, none) "t" []).cache).externalCalls
      ≤ 1) :=
  geocode_cache_contract id (some 5, none) "t" [] (Or.inl ⟨5, rfl⟩)

namespace Geo

theorem batchGo_events {G : Type} (norm : String → String)
    (resolve : String → Option G × Option String) (total : Nat) :
    ∀ (j : Nat) (terms : List TermOcc)
      (cache : List (String × CacheEntry G)),
      (batchGo norm resolve total (j + 1) terms cache).events =
        (List.enumFrom j terms).map (fun p => (p.1, total, some p.2.raw)) := by
  intro j terms
  induction terms generalizing j with
  | nil => intro cache; rfl
  | cons item rest ih =>
    intro cache
    cases hr : (geocode_with_cache norm (resolve item.raw) item.raw cache).data
      with
    | none =>
      simp only [batchGo, hr, List.enumFrom_cons, List.map_cons,
        Nat.add_sub_cancel]
      exact congrArg (List.cons _) (ih (j + 1) _)
    | some d =>
      simp only [batchGo, hr, List.enumFrom_cons, List.map_cons,
        Nat.add_sub_cancel]
      exact congrArg (List.cons _) (ih (j + 1) _)

theorem batchGo_counts {G : Type} (norm : String → String)
    (resolve : String → Option G × Option String) (total : Nat) :
    ∀ (i : Nat) (terms : List TermOcc)
      (cache : List (String × CacheEntry G)),
      (batchGo norm resolve total i terms cache).features.length +
        (batchGo norm resolve total i terms cache).rejects.length =
        terms.length := by
  intro i terms
  induction terms generalizing i with
  | nil => intro cache; rfl
  | cons item rest ih =>
    intro cache
    cases hr : (geocode_with_cache norm (resolve item.raw) item.raw cache).data
      with
    | none =>
      simp only [batchGo, hr, List.length_cons]
      have := ih (i + 1)
        (geocode_with_cache norm (resolve item.raw) item.raw cache).cache
      omega
    | some d =>
      simp only [batchGo, hr, List.length_cons]
      have := ih (i + 1)
        (geocode_with_cache norm (resolve item.raw) item.raw cache).cache
      omega

end Geo

/--
C9: with a progress callback, the grouped batch driver over N terms emits
exactly the N per-term notifications `(i, N, term_(i+1))` for `i < N`
followed by one final notification `(N, N, none)` with no current term —
N+1 notifications in total, the last signalling completion — and every
term contributes exactly one geographic feature or one reject record, so a
rejected term never aborts the batch.
-/
theorem batch_driver_progress_and_rejects {G : Type}
    (norm : String → String)
    (resolve : String → Option G × Option String) (terms : List Geo.TermOcc)
    (cache : List (String × Geo.CacheEntry G)) :
    (Geo.phase_geocode_grouped norm resolve terms cache).events =
      (terms.enum.map (fun p => (p.1, terms.length, some p.2.raw))) ++
        [(terms.length, terms.length, none)] ∧
    (Geo.phase_geocode_grouped norm resolve terms cache).events.length =
      terms.length + 1 ∧
    (Geo.phase_geocode_grouped norm resolve terms cache).events.getLast? =
      some (terms.length, terms.length, none) ∧
    (Geo.phase_geocode_grouped norm resolve terms cache).features.length +
      (Geo.phase_geocode_grouped norm resolve terms cache).rejects.length =
      terms.length := by
  have h0 := Geo.batchGo_events norm resolve terms.length 0 terms cache
  have hev : (Geo.phase_geocode_grouped norm resolve terms cache).events =
      (terms.enum.map (fun p => (p.1, terms.length, some p.2.raw))) ++
        [(terms.length, terms.length, none)] := by
    simp only [Geo.phase_geocode_grouped]
    have h1 : (Geo.batchGo norm resolve terms.length 1 terms cache).events =
        (List.enumFrom 0 terms).map
          (fun p => (p.1, terms.length, some p.2.raw)) := h0
    rw [h1]
    rfl
  refine ⟨hev, ?_, ?_, ?_⟩
  · rw [hev]
    simp [List.length_append, List.length_map, List.enum_length]
  · rw [hev]
    exact List.getLast?_concat _
  · simp only [Geo.phase_geocode_grouped]
    exact Geo.batchGo_counts norm resolve terms.length 1 terms cache

/--
C8 (amended): the Override State loaders absorb a missing file and
unparsable content, returning the empty-but-valid state, and
`_load_raw_exclusions` maps the legacy flat `excluded` list into the
global-exclusion field; however a persisted file that parses to a
non-object JSON value makes the load raise instead (see the
counterexample).
-/
theorem override_load_absorbs_missing_corrupt_legacy
    (norm : String → String) (l : List Store.JVal) :
    Store._load_raw_exclusions norm none = .ok Store.emptyRawExclusions ∧
    Store._load_raw_exclusions norm (some none) =
      .ok Store.emptyRawExclusions ∧
    Store._load_raw_exclusions norm
        (some (some (.obj [("excluded", .arr l)]))) =
      .ok ⟨l.filterMap (fun x =>
          match x with
          | .str s => some s
          | _ => none), [], []⟩ ∧
    Store._load_user_state none = .ok ⟨.arr [], .arr [], .arr []⟩ ∧
    Store._load_user_state (some none) = .ok ⟨.arr [], .arr [], .arr []⟩ := by
  refine ⟨rfl, rfl, ?_, rfl, rfl⟩
  cases l with
  | nil => rfl
  | cons a as => rfl

/-- Counterexample to C8 as stated: a persisted file parsing to the JSON
array `[]` — corrupt content — makes both loaders raise instead of
returning the empty-but-valid Override State. -/
theorem override_load_fails_on_array_file :
    Store._load_raw_exclusions id (some (some (.arr []))) =
      .error "TypeError" ∧
    Store._load_user_state (some (some (.arr []))) =
      .error "AttributeError" :=
  ⟨rfl, rfl⟩
